import Mathlib

set_option synthInstance.maxSize 512

/-!
Verification of the graph substructure indexing pipeline
(`graph_parser.py`, `identify_discriminative.py`, `convert_to_features.py`,
`generate_candidates.py`).

Conventions of the embedding:
* Python `int` is `Int`; graph ids (always produced by a `Nat` counter) are `Nat`;
  Python `float` arithmetic (score and support-ratio computations) is modelled by
  exact rational arithmetic over `Rat`.
* A Python dict whose keys are unique is an association list in insertion order.
* Fallible code returns `Except PyErr`, where `PyErr` names the Python exception
  class the source would raise.
-/

/-- Python exception classes raised by the embedded code paths. -/
inductive PyErr where
  | indexError
  | valueError
  | attributeError
deriving DecidableEq, Repr

/-- `graph_parser.Graph`: `nodes` is the Python dict `node_id -> label` as an
association list in insertion order (keys kept unique by `add_node`), `edges`
the list of `(source, target, label)` triples in insertion order.  The source
also keeps a derived NetworkX graph `self.G`, updated in lockstep by
`add_node`/`add_edge`; it is recomputed from `nodes`/`edges` by the `nx*`
functions below. -/
structure Graph where
  id : Nat
  nodes : List (Int × Int)
  edges : List (Int × Int × Int)
deriving DecidableEq, Repr

/-- Python dict assignment: replace the value at an existing key in place,
otherwise append the new key at the end (dict insertion order). -/
def updateAssoc : List (Int × Int) → Int → Int → List (Int × Int)
  | [], k, v => [(k, v)]
  | (k', v') :: rest, k, v =>
    if k' = k then (k, v) :: rest else (k', v') :: updateAssoc rest k v

/-- `Graph.add_node`: `self.nodes[node_id] = label` (and the same node with a
`label` attribute in `self.G`). -/
def Graph.add_node (g : Graph) (nodeId label : Int) : Graph :=
  { g with nodes := updateAssoc g.nodes nodeId label }

/-- `Graph.add_edge`: appends the triple to `self.edges` (and adds the edge,
with a `label` attribute, to `self.G`; the derived NetworkX view is recomputed
from the edge list by the `nx*` functions). -/
def Graph.add_edge (g : Graph) (source target label : Int) : Graph :=
  { g with edges := g.edges ++ [(source, target, label)] }

def Graph.num_nodes (g : Graph) : Nat := g.nodes.length

def Graph.num_edges (g : Graph) : Nat := g.edges.length

/-- Keys of the node dict, in insertion order. -/
def nodeKeys (g : Graph) : List Int := g.nodes.map Prod.fst

/-- Python `graph.nodes.get(v)` / the `label` attribute of node `v` in the
NetworkX view: `none` when `v` was never declared by `add_node` (NetworkX
creates attribute-less nodes for edge endpoints, and `dict.get('label')` on
them yields `None`). -/
def nodeLabel? (g : Graph) (v : Int) : Option Int :=
  (g.nodes.find? (fun p => decide (p.1 = v))).map Prod.snd

/-- Python `graph.nodes[v]` in contexts where the source assumes the node was
declared (it raises `KeyError` otherwise); the default `0` is never reached on
graphs satisfying the data-model invariant that every edge endpoint exists in
`nodes`. -/
def nodeLabelD (g : Graph) (v : Int) : Int := (nodeLabel? g v).getD 0

/-- Keep the first occurrence of each element (dict/set insertion order). -/
def dedupFirstAux : List Int → List Int → List Int
  | [], _ => []
  | x :: xs, seen =>
    if x ∈ seen then dedupFirstAux xs seen else x :: dedupFirstAux xs (x :: seen)

def dedupFirst (l : List Int) : List Int := dedupFirstAux l []

/-- The node list of the NetworkX view `graph.G`, in insertion order: nodes
declared by `add_node` first, then endpoints of edges that were never
declared.  (In the source the two interleave in call order; every graph built
by this pipeline declares its nodes before its edges, where the two orders
coincide.) -/
def nxNodeList (g : Graph) : List Int :=
  dedupFirst (nodeKeys g ++ g.edges.flatMap (fun e => [e.1, e.2.1]))

/-- NetworkX `G.has_edge u v` on the undirected simple graph built by
`add_edge`. -/
def nxAdj (g : Graph) (u v : Int) : Bool :=
  g.edges.any (fun e => decide ((e.1 = u ∧ e.2.1 = v) ∨ (e.1 = v ∧ e.2.1 = u)))

/-- NetworkX `G[u][v]['label']`: the label of the last `add_edge` call for the
(undirected) pair, since re-adding an edge overwrites its attribute dict. -/
def nxEdgeLabel? (g : Graph) (u v : Int) : Option Int :=
  (g.edges.reverse.find?
    (fun e => decide ((e.1 = u ∧ e.2.1 = v) ∨ (e.1 = v ∧ e.2.1 = u)))).map
    (fun e => e.2.2)

/-- Total version of `nxEdgeLabel?` for contexts where the source has already
established adjacency. -/
def nxEdgeLabelD (g : Graph) (u v : Int) : Int := (nxEdgeLabel? g u v).getD 0

/-- NetworkX `list(G.neighbors v)`: neighbors in the insertion order of the
adjacency dict, i.e. in order of the `add_edge` calls touching `v`. -/
def nxNeighbors (g : Graph) (v : Int) : List Int :=
  dedupFirst (g.edges.filterMap (fun e =>
    if e.1 = v then some e.2.1 else if e.2.1 = v then some e.1 else none))

/-! ## `graph_parser.parse_graph_dataset`

The textual layer (`line.strip()`, `line.split()`, `int(...)`,
`line.startswith('#')`) is modelled executably over the line's character
list, following Python semantics: `strip`/`split` treat the ASCII whitespace
characters, `int` accepts surrounding whitespace, an optional sign and a
nonempty ASCII digit run. -/

def isSpaceChar (c : Char) : Bool :=
  c = ' ' || c = '\t' || c = '\n' || c = '\r' || c = '\x0b' || c = '\x0c'

/-- Python `line.strip()`. -/
def pyStrip (cs : List Char) : List Char :=
  ((cs.dropWhile isSpaceChar).reverse.dropWhile isSpaceChar).reverse

/-- Python `line.split()`: maximal runs of non-whitespace characters.  `acc`
holds the current token, reversed. -/
def splitWsAux : List Char → List Char → List (List Char)
  | [], acc => if acc = [] then [] else [acc.reverse]
  | c :: rest, acc =>
    if isSpaceChar c then
      if acc = [] then splitWsAux rest [] else acc.reverse :: splitWsAux rest []
    else splitWsAux rest (c :: acc)

def pyTokens (cs : List Char) : List (List Char) := splitWsAux cs []

/-- The value of a nonempty all-digit character run. -/
def digitsVal (ds : List Char) : Option Nat :=
  if ds = [] then none
  else if ds.all Char.isDigit then
    some (ds.foldl (fun a c => a * 10 + (c.toNat - 48)) 0)
  else none

/-- Python `int(token)`: optional surrounding whitespace, optional sign,
nonempty digit run; `none` models the `ValueError` raise. -/
def pyInt? (tok : List Char) : Option Int :=
  match pyStrip tok with
  | '-' :: ds => (digitsVal ds).map (fun n => -(n : Int))
  | '+' :: ds => (digitsVal ds).map (fun n => (n : Int))
  | ds => (digitsVal ds).map (fun n => (n : Int))

/-- Parser state: finished graphs, the graph currently being filled
(`current_graph`, `None` before the first `#` marker), and the next graph id. -/
structure ParseState where
  graphs : List Graph
  current : Option Graph
  nextId : Nat
deriving DecidableEq, Repr

/-- One iteration of the line loop of `parse_graph_dataset`.  Mirrors the
source's evaluation order: `int(parts[1])` is evaluated before `int(parts[2])`
(and, for edges, `int(parts[3])`), each able to raise `IndexError` (missing
token) or `ValueError` (unparsable integer) first; only then is
`current_graph.add_node`/`add_edge` called, which raises `AttributeError` when
no `#` marker has opened a graph yet.  Lines starting with neither `#`, `v`
nor `e` are silently ignored, and `add_edge` performs no check that the edge's
endpoints were declared. -/
def processLine (st : ParseState) (rawLine : String) : Except PyErr ParseState :=
  let line := pyStrip rawLine.data
  if line = [] then .ok st
  else if line.head? = some '#' then
    .ok { graphs := st.graphs ++ st.current.toList,
          current := some ⟨st.nextId, [], []⟩,
          nextId := st.nextId + 1 }
  else
    let parts := pyTokens line
    if parts.headD [] = ['v'] then
      match parts[1]? with
      | none => .error .indexError
      | some s1 =>
        match pyInt? s1 with
        | none => .error .valueError
        | some nodeId =>
          match parts[2]? with
          | none => .error .indexError
          | some s2 =>
            match pyInt? s2 with
            | none => .error .valueError
            | some label =>
              match st.current with
              | none => .error .attributeError
              | some g => .ok { st with current := some (g.add_node nodeId label) }
    else if parts.headD [] = ['e'] then
      match parts[1]? with
      | none => .error .indexError
      | some s1 =>
        match pyInt? s1 with
        | none => .error .valueError
        | some source =>
          match parts[2]? with
          | none => .error .indexError
          | some s2 =>
            match pyInt? s2 with
            | none => .error .valueError
            | some target =>
              match parts[3]? with
              | none => .error .indexError
              | some s3 =>
                match pyInt? s3 with
                | none => .error .valueError
                | some label =>
                  match st.current with
                  | none => .error .attributeError
                  | some g =>
                    .ok { st with current := some (g.add_edge source target label) }
    else .ok st

/-- `parse_graph_dataset`, over the list of lines of the file. -/
def parse_graph_dataset (lines : List String) : Except PyErr (List Graph) := do
  let st ← lines.foldlM processLine ⟨[], none, 0⟩
  return st.graphs ++ st.current.toList

/-! ## `graph_parser.remove_duplicates` -/

/-- One graph's canonical signature: `str(sorted(nodes.items())) +
str(sorted(edges))`.  The two `str(...)` pieces determine and are determined
by the two sorted lists, so the signature is modelled as the pair of sorted
lists (Python tuple comparison is the lexicographic order used here). -/
def signature (g : Graph) : List (Int × Int) × List (Int × Int × Int) :=
  (g.nodes.mergeSort (fun a b => decide (a.1 < b.1 ∨ (a.1 = b.1 ∧ a.2 ≤ b.2))),
   g.edges.mergeSort (fun a b =>
     decide (a.1 < b.1 ∨ (a.1 = b.1 ∧
       (a.2.1 < b.2.1 ∨ (a.2.1 = b.2.1 ∧ a.2.2 ≤ b.2.2))))))

/-- The loop of `remove_duplicates`: `seen` is the signature set, `n` the
length of `unique_graphs` so far; a surviving graph gets `graph.id = n`. -/
def removeDupAux :
    List Graph → List (List (Int × Int) × List (Int × Int × Int)) → Nat → List Graph
  | [], _, _ => []
  | g :: rest, seen, n =>
    if signature g ∈ seen then removeDupAux rest seen n
    else { g with id := n } :: removeDupAux rest (signature g :: seen) (n + 1)

/-- `remove_duplicates`: keep the first graph of each signature, reassigning
ids sequentially from 0. -/
def remove_duplicates (graphs : List Graph) : List Graph := removeDupAux graphs [] 0

/-! ## `identify_discriminative.calculate_discriminative_power` -/

/-- `calculate_discriminative_power`: `d1 * d2 / total_graphs**2` with the
zero-database guard; Python float division is modelled as exact rational
division. -/
def calculate_discriminative_power (support total_graphs : Nat) : Rat :=
  let d1 : Rat := support
  let d2 : Rat := (total_graphs : Rat) - (support : Rat)
  if total_graphs = 0 then 0 else d1 * d2 / ((total_graphs : Rat) ^ 2)

/-! ## `generate_candidates.generate_candidates` -/

/-- The inner column loop of `generate_candidates` for one query row and one
database row: `k` is the current column index, the list argument the remaining
suffix `query_vec[k:]`, so the loop reads `query_vec[k]` structurally while
indexing `db_vec[k]` exactly as the source does.  Python's short-circuit
`query_vec[k] == 1 and db_vec[k] == 0` reads `db_vec[k]` only when
`query_vec[k] == 1`; reading past the end of `db_vec` raises `IndexError`.
Returns `false` as soon as a query 1-column meets a database 0-column, `true`
when the scan completes. -/
def domScan (dbVec : List Int) : List Int → Nat → Except PyErr Bool
  | [], _ => .ok true
  | x :: rest, k =>
    if x = 1 then
      if k < dbVec.length then
        if dbVec.getD k 0 = 0 then .ok false else domScan dbVec rest (k + 1)
      else .error .indexError
    else domScan dbVec rest (k + 1)

/-- The database-row loop for one query row: `j` is the running row index,
candidates are appended in increasing `j` order. -/
def rowCandidates (queryVec : List Int) :
    List (List Int) → Nat → Except PyErr (List Nat)
  | [], _ => .ok []
  | dbVec :: rest, j => do
    let keep ← domScan dbVec queryVec 0
    let tail ← rowCandidates queryVec rest (j + 1)
    if keep then return j :: tail else return tail

/-- `generate_candidates`: for each query row, the database row indices whose
feature vector dominates it.  The source performs no shape validation before
the scan. -/
def generate_candidates (dbFeatures queryFeatures : List (List Int)) :
    Except PyErr (List (List Nat)) :=
  queryFeatures.mapM (fun q => rowCandidates q dbFeatures 0)

/-! ## `convert_to_features.is_subgraph_isomorphic`

The source converts both graphs to NetworkX and calls
`isomorphism.GraphMatcher(target_nx, pattern_nx, node_match, edge_match)
.subgraph_is_isomorphic()`.  NetworkX's `subgraph_is_isomorphic` decides
*node-induced* subgraph isomorphism: it searches for an injective assignment
of distinct target nodes to the pattern's nodes under which two pattern nodes
are adjacent exactly when their images are, with `node_match` comparing the
optional `label` attributes and `edge_match` the labels of corresponding
edges.  The embedding enumerates the same search space — every injective
assignment of target nodes to the pattern's node list — and tests each
assignment for exactly the matcher's feasibility conditions. -/

/-- `f` is a label-preserving induced embedding of `p`'s NetworkX view into
`t`'s: injective on `p`'s nodes and mapping them into `t`'s, matching the
optional node labels (`node_match`), with adjacency agreeing in both
directions (node-induced) and `edge_match` on edges present on both sides. -/
def IsInducedEmbedding (p t : Graph) (f : Int → Int) : Prop :=
  (∀ u ∈ nxNodeList p, f u ∈ nxNodeList t) ∧
  (∀ u ∈ nxNodeList p, ∀ v ∈ nxNodeList p, f u = f v → u = v) ∧
  (∀ u ∈ nxNodeList p, nodeLabel? t (f u) = nodeLabel? p u) ∧
  (∀ u ∈ nxNodeList p, ∀ v ∈ nxNodeList p,
    nxAdj t (f u) (f v) = nxAdj p u v ∧
    (nxAdj p u v = true → nxEdgeLabel? p u v = nxEdgeLabel? t (f u) (f v)))

instance (p t : Graph) (f : Int → Int) : Decidable (IsInducedEmbedding p t f) := by
  unfold IsInducedEmbedding; infer_instance

/-- Node-induced, label-constrained subgraph isomorphism: the relation
NetworkX `subgraph_is_isomorphic` decides. -/
def InducedSubgraphIso (p t : Graph) : Prop := ∃ f, IsInducedEmbedding p t f

/-- All ways to pick `k` pairwise-distinct elements of `tns`, in order. -/
def injections : Nat → List Int → List (List Int)
  | 0, _ => [[]]
  | k + 1, tns => tns.flatMap (fun t => (injections k (tns.erase t)).map (t :: ·))

/-- The function `ns.get i ↦ pick.get i` (the identity elsewhere), as a total
function. -/
def lookupF (ns pick : List Int) (v : Int) : Int := ((ns.zip pick).lookup v).getD v

/-- `is_subgraph_isomorphic(pattern_graph, target_graph)`: search all
injective assignments for a feasible one. -/
def is_subgraph_isomorphic (pattern_graph target_graph : Graph) : Bool :=
  (injections (nxNodeList pattern_graph).length (nxNodeList target_graph)).any
    (fun pick => decide (IsInducedEmbedding pattern_graph target_graph
      (lookupF (nxNodeList pattern_graph) pick)))

/-- Modelled from the spec (§4.4 and glossary): `f` is a label-preserving
monomorphism of `p` into `t` — injective on `p`'s declared nodes, preserving
node labels, and sending every pattern edge to a target edge with the same
label; edges of `t` absent from `p` are unconstrained. -/
def IsMonoEmbedding (p t : Graph) (f : Int → Int) : Prop :=
  (∀ u ∈ nodeKeys p, f u ∈ nodeKeys t) ∧
  (∀ u ∈ nodeKeys p, ∀ v ∈ nodeKeys p, f u = f v → u = v) ∧
  (∀ u ∈ nodeKeys p, nodeLabel? t (f u) = nodeLabel? p u) ∧
  (∀ e ∈ p.edges, ∃ d ∈ t.edges,
    ((d.1 = f e.1 ∧ d.2.1 = f e.2.1) ∨ (d.1 = f e.2.1 ∧ d.2.1 = f e.1)) ∧
    d.2.2 = e.2.2)

instance (p t : Graph) (f : Int → Int) : Decidable (IsMonoEmbedding p t f) := by
  unfold IsMonoEmbedding; infer_instance

/-- Modelled from the spec: `p` is subgraph-isomorphic to `t` in the spec's
label-preserving monomorphism sense. -/
def SpecSubgraphIsomorphic (p t : Graph) : Prop := ∃ f, IsMonoEmbedding p t f

/-- Modelled from the spec: decision procedure for `SpecSubgraphIsomorphic`,
searching the same bounded space of injective assignments. -/
def specContains (t p : Graph) : Bool :=
  (injections (dedupFirst (nodeKeys p)).length (dedupFirst (nodeKeys t))).any
    (fun pick => decide (IsMonoEmbedding p t
      (lookupF (dedupFirst (nodeKeys p)) pick)))

/-- Modelled from the spec (glossary): the support of a pattern body over a
graph database — the number of database graphs containing it. -/
def specSupport (graphs : List Graph) (p : Graph) : Nat :=
  (graphs.filter (fun g => specContains g p)).length

/-! ## `identify_discriminative.SubgraphPattern` and
`convert_to_features.convert_graphs_to_features` -/

/-- `SubgraphPattern`: a mined pattern.  `graph_ids` is the Python set of ids
of database graphs containing the pattern; `support` is its size;
`discriminative_score` starts at `0.0` and is set during selection. -/
structure SubgraphPattern where
  id : Nat
  graph : Graph
  support : Nat
  graph_ids : Finset Nat
  discriminative_score : Rat := 0
deriving DecidableEq

/-- `convert_graphs_to_features`: the binary feature matrix, rows in graph
order, columns in pattern order, bit set when the pattern's body is
subgraph-isomorphic (in the source's NetworkX sense) to the graph. -/
def convert_graphs_to_features (graphs : List Graph) (patterns : List SubgraphPattern) :
    List (List Int) :=
  graphs.map (fun g => patterns.map (fun p =>
    if is_subgraph_isomorphic p.graph g then 1 else 0))

/-! ## `identify_discriminative`: hyperparameters, fallback miner, selection -/

/-- Hyperparameters of `identify_discriminative.py` (the float literals `0.05`
and `0.80` are modelled by the decimal rationals they denote). -/
def GSPAN_SUPPORT_THRESHOLD : Rat := 5

def K : Nat := 100

def MINM_SUPPPORT_THRESHOLD : Rat := 5 / 100

def MAXM_SUPPORT_THRESHOLD : Rat := 80 / 100

def MIN_EDGES : Nat := 2

/-- A `defaultdict(set)` support table: keys kept in first-insertion order,
adding a graph id to an existing key's set in place. -/
def upsert {κ : Type} [DecidableEq κ] :
    List (κ × Finset Nat) → κ → Nat → List (κ × Finset Nat)
  | [], k, i => [(k, {i})]
  | (k', s) :: rest, k, i =>
    if k' = k then (k', insert i s) :: rest else (k', s) :: upsert rest k i

/-- Fill a keyed support table from the per-graph key occurrence lists,
scanning the graphs in database order. -/
def tableOf {κ : Type} [DecidableEq κ] (keysOf : Graph → List κ) (graphs : List Graph) :
    List (κ × Finset Nat) :=
  graphs.foldl (fun t g => (keysOf g).foldl (fun t2 k => upsert t2 k g.id) t) []

/-- Emit one `SubgraphPattern` per table entry whose support set has at least
`minCount` graphs, numbering emitted patterns consecutively from `startId`. -/
def emitPatterns {κ : Type} (minCount : Int) (startId : Nat) (build : Nat → κ → Graph) :
    List (κ × Finset Nat) → List SubgraphPattern
  | [] => []
  | (k, s) :: rest =>
    if minCount ≤ (s.card : Int) then
      ⟨startId, build startId k, s.card, s, 0⟩ ::
        emitPatterns minCount (startId + 1) build rest
    else emitPatterns minCount startId build rest

/-- `int(total_graphs * min_support_pct / 100)`: exact rational arithmetic,
`int(...)` truncating toward zero (`num / den` in integer division). -/
def minSupportCount (totalGraphs : Nat) (minSupportPct : Rat) : Int :=
  let x : Rat := (totalGraphs : Rat) * minSupportPct / 100
  x.num / (x.den : Int)

/-- Stage 1 keys: one key per edge occurrence, the edge label. -/
def edgeLabelKeys (g : Graph) : List Int := g.edges.map (fun e => e.2.2)

/-- Stage 1 bodies: a single labeled edge between two dummy label-0 nodes. -/
def buildSingleEdge (pid : Nat) (label : Int) : Graph :=
  (((Graph.mk pid [] []).add_node 0 0).add_node 1 0).add_edge 0 1 label

/-- Stage 2 keys: one key per node occurrence, the node label. -/
def nodeLabelKeys (g : Graph) : List Int := g.nodes.map (fun p => p.2)

def buildSingleNode (pid : Nat) (label : Int) : Graph :=
  (Graph.mk pid [] []).add_node 0 label

/-- Stage 2b keys: for each edge occurrence, `(source_label, edge_label)` then
`(target_label, edge_label)` (the source's `graph.nodes[...]` lookups raise
`KeyError` on an undeclared endpoint; `nodeLabelD` is total, agreeing on
graphs satisfying the endpoint invariant). -/
def nodeEdgeKeys (g : Graph) : List (Int × Int) :=
  g.edges.flatMap (fun e =>
    [(nodeLabelD g e.1, e.2.2), (nodeLabelD g e.2.1, e.2.2)])

/-- Stage 2b bodies: a labeled node with one labeled edge to a dummy node. -/
def buildNodeEdge (pid : Nat) (k : Int × Int) : Graph :=
  (((Graph.mk pid [] []).add_node 0 k.1).add_node 1 0).add_edge 0 1 k.2

/-- The index pairs `(neighbors[i], neighbors[j])` with `i < j`, as Python's
`for i, n1 in enumerate(neighbors): for n2 in neighbors[i+1:]`. -/
def orderedPairs {α : Type} : List α → List (α × α)
  | [] => []
  | x :: xs => xs.map (fun y => (x, y)) ++ orderedPairs xs

/-- Stage 3 keys: the canonical five-label tuple
`(n1_label, e1_label, node_label, e2_label, n2_label)` of each 2-path, the
direction chosen by the Python tuple comparison
`(n1_label, e1_label) > (n2_label, e2_label)`. -/
def path2Keys (g : Graph) : List (Int × Int × Int × Int × Int) :=
  (nxNodeList g).flatMap (fun node =>
    (orderedPairs (nxNeighbors g node)).map (fun q =>
      let n1l := nodeLabelD g q.1
      let n2l := nodeLabelD g q.2
      let nl := nodeLabelD g node
      let e1 := nxEdgeLabelD g q.1 node
      let e2 := nxEdgeLabelD g node q.2
      if n2l < n1l ∨ (n1l = n2l ∧ e2 < e1) then (n2l, e2, nl, e1, n1l)
      else (n1l, e1, nl, e2, n2l)))

/-- Stage 3 bodies: the labeled path recorded in the signature. -/
def buildPath2 (pid : Nat) (k : Int × Int × Int × Int × Int) : Graph :=
  (((((Graph.mk pid [] []).add_node 0 k.1).add_node 1 k.2.2.1).add_node 2
    k.2.2.2.2).add_edge 0 1 k.2.1).add_edge 1 2 k.2.2.2.1

/-- Python `sorted([a, b])` on two lexicographically compared triples. -/
def tripleLeB (a b : Int × Int × Int) : Bool :=
  decide (a.1 < b.1 ∨ (a.1 = b.1 ∧
    (a.2.1 < b.2.1 ∨ (a.2.1 = b.2.1 ∧ a.2.2 ≤ b.2.2))))

/-- Stage 4 keys: for each triangle occurrence, the sorted pair of the
node-label triple `(node, n1, n2)` and the edge-label triple. -/
def triKeys (g : Graph) : List ((Int × Int × Int) × (Int × Int × Int)) :=
  (nxNodeList g).flatMap (fun node =>
    (orderedPairs (nxNeighbors g node)).filterMap (fun q =>
      if nxAdj g q.1 q.2 then
        let a := (nodeLabelD g node, nodeLabelD g q.1, nodeLabelD g q.2)
        let b := (nxEdgeLabelD g node q.1, nxEdgeLabelD g q.1 q.2,
                  nxEdgeLabelD g q.2 node)
        some (if tripleLeB a b then (a, b) else (b, a))
      else none))

/-- Stage 4 bodies: the source discards the occurrence labels and emits an
all-zero triangle (`# Simplified - just record that it's a triangle`). -/
def buildTriangle (pid : Nat) (_k : (Int × Int × Int) × (Int × Int × Int)) : Graph :=
  (((((((Graph.mk pid [] []).add_node 0 0).add_node 1 0).add_node 2
    0).add_edge 0 1 0).add_edge 1 2 0).add_edge 2 0 0)

/-- Stage 5 keys: the seven-label tuple of every directed 3-path
`node - n1 - n2 - n3` with the source's distinctness tests. -/
def path3Keys (g : Graph) : List (Int × Int × Int × Int × Int × Int × Int) :=
  (nxNodeList g).flatMap (fun node =>
    (nxNeighbors g node).flatMap (fun n1 =>
      (nxNeighbors g n1).flatMap (fun n2 =>
        if n2 ≠ node then
          (nxNeighbors g n2).filterMap (fun n3 =>
            if n3 ≠ n1 ∧ n3 ≠ node then
              some (nodeLabelD g node, nxEdgeLabelD g node n1, nodeLabelD g n1,
                    nxEdgeLabelD g n1 n2, nodeLabelD g n2, nxEdgeLabelD g n2 n3,
                    nodeLabelD g n3)
            else none)
        else [])))

/-- Stage 5 bodies: the labeled 4-node path of the signature. -/
def buildPath3 (pid : Nat) (k : Int × Int × Int × Int × Int × Int × Int) : Graph :=
  (((((((Graph.mk pid [] []).add_node 0 k.1).add_node 1 k.2.2.1).add_node 2
    k.2.2.2.2.1).add_node 3 k.2.2.2.2.2.2).add_edge 0 1 k.2.1).add_edge 1 2
    k.2.2.2.1).add_edge 2 3 k.2.2.2.2.2.1

/-- Python tuple `≤` on `(node_label, edge_label)` pairs. -/
def pairLeB (a b : Int × Int) : Bool :=
  decide (a.1 < b.1 ∨ (a.1 = b.1 ∧ a.2 ≤ b.2))

/-- Stage 6 keys: for each node with at least 3 neighbors, the center label
with the sorted `(neighbor_label, edge_label)` pairs of the first 3 neighbors. -/
def starKeys (g : Graph) : List (Int × List (Int × Int)) :=
  (nxNodeList g).filterMap (fun node =>
    let nbrs := nxNeighbors g node
    if 3 ≤ nbrs.length then
      some (nodeLabelD g node,
        ((nbrs.take 3).map (fun n => (nodeLabelD g n, nxEdgeLabelD g node n))).mergeSort
          pairLeB)
    else none)

/-- Stage 6 bodies: the labeled star `center - (n_i, e_i)` with node `i` and
edge `(0, i)` added per neighbor in signature order. -/
def buildStar (pid : Nat) (k : Int × List (Int × Int)) : Graph :=
  (List.enumFrom 1 k.2).foldl
    (fun g p => (g.add_node (p.1 : Int) p.2.1).add_edge 0 (p.1 : Int) p.2.2)
    ((Graph.mk pid [] []).add_node 0 k.1)

/-- Stage 7 keys: the constant key `('square',)` once per 4-cycle occurrence
`node - n1 - n2 - n3 - node`.  The source's `break` merely stops re-adding the
same constant key for the current `n2`, so the resulting table is unchanged. -/
def squareKeys (g : Graph) : List Unit :=
  (nxNodeList g).flatMap (fun node =>
    (nxNeighbors g node).flatMap (fun n1 =>
      ((nxNeighbors g n1).filter (fun n => n ≠ node)).flatMap (fun n2 =>
        ((nxNeighbors g n2).filter (fun n => n ≠ n1)).filterMap (fun n3 =>
          if nxAdj g n3 node then some () else none))))

/-- Stage 7 bodies: an all-zero 4-cycle. -/
def buildSquare (pid : Nat) (_k : Unit) : Graph :=
  (((((((((Graph.mk pid [] []).add_node 0 0).add_node 1 0).add_node 2
    0).add_node 3 0).add_edge 0 1 0).add_edge 1 2 0).add_edge 2 3
    0).add_edge 3 0 0)

/-- `mine_frequent_subgraphs_simple`: the fallback enumerator, the union of
the eight motif-class stages with pattern ids threaded across stages in
emission order. -/
def mine_frequent_subgraphs_simple (graphs : List Graph) (minSupportPct : Rat) :
    List SubgraphPattern :=
  let minc := minSupportCount graphs.length minSupportPct
  let s1 := emitPatterns minc 0 buildSingleEdge (tableOf edgeLabelKeys graphs)
  let n1 := s1.length
  let s2 := emitPatterns minc n1 buildSingleNode (tableOf nodeLabelKeys graphs)
  let n2 := n1 + s2.length
  let s3 := emitPatterns minc n2 buildNodeEdge (tableOf nodeEdgeKeys graphs)
  let n3 := n2 + s3.length
  let s4 := emitPatterns minc n3 buildPath2 (tableOf path2Keys graphs)
  let n4 := n3 + s4.length
  let s5 := emitPatterns minc n4 buildTriangle (tableOf triKeys graphs)
  let n5 := n4 + s5.length
  let s6 := emitPatterns minc n5 buildPath3 (tableOf path3Keys graphs)
  let n6 := n5 + s6.length
  let s7 := emitPatterns minc n6 buildStar (tableOf starKeys graphs)
  let n7 := n6 + s7.length
  let s8 := emitPatterns minc n7 buildSquare (tableOf squareKeys graphs)
  s1 ++ s2 ++ s3 ++ s4 ++ s5 ++ s6 ++ s7 ++ s8

/-- The hard-constraint filter of step 1 of `select_discriminative_subgraphs`
(`num_edges >= MIN_EDGES` and support ratio inside the closed window), the
ratio in exact rational arithmetic.  The source raises `ZeroDivisionError`
when `total_graphs = 0`; theorems below assume `0 < total_graphs`. -/
def passesHardFilter (total_graphs : Nat) (p : SubgraphPattern) : Bool :=
  decide (MIN_EDGES ≤ p.graph.num_edges ∧
    MINM_SUPPPORT_THRESHOLD ≤ (p.support : Rat) / (total_graphs : Rat) ∧
    (p.support : Rat) / (total_graphs : Rat) ≤ MAXM_SUPPORT_THRESHOLD)

/-- Set `pattern.discriminative_score` as the selection loop does. -/
def scorePattern (total_graphs : Nat) (p : SubgraphPattern) : SubgraphPattern :=
  { p with discriminative_score := calculate_discriminative_power p.support total_graphs }

/-- Python's stable `candidates.sort(key=lambda p: (score, num_edges),
reverse=True)`: `a` may precede `b` exactly when `b`'s key is at most `a`'s. -/
def patternSortLe (a b : SubgraphPattern) : Bool :=
  decide (b.discriminative_score < a.discriminative_score ∨
    (b.discriminative_score = a.discriminative_score ∧
      b.graph.num_edges ≤ a.graph.num_edges))

/-- `select_discriminative_subgraphs`: hard filter, fallback to the full
scored pattern list when the filter empties it (with a printed diagnostic),
stable descending sort by `(score, edge count)`, truncation to `k`. -/
def select_discriminative_subgraphs (patterns : List SubgraphPattern)
    (total_graphs : Nat) (k : Nat) : List SubgraphPattern :=
  let candidates :=
    (patterns.filter (passesHardFilter total_graphs)).map (scorePattern total_graphs)
  let candidates2 :=
    if candidates.isEmpty then patterns.map (scorePattern total_graphs) else candidates
  (candidates2.mergeSort patternSortLe).take k

/-! ## Concrete instances used by the claim analyses -/

/-- Two isolated label-5 nodes (no edge). -/
def twoNodesNoEdge : Graph := ⟨0, [(0, 5), (1, 5)], []⟩

/-- The same two label-5 nodes joined by an edge labeled 3. -/
def twoNodesOneEdge : Graph := ⟨1, [(0, 5), (1, 5)], [(0, 1, 3)]⟩

/-- `twoNodesNoEdge` packaged as a one-entry pattern index. -/
def exPattern : SubgraphPattern := ⟨0, twoNodesNoEdge, 1, {0}, 0⟩

/-- The C5 database graph: two label-5 nodes joined by an edge labeled 7. -/
def c5Graph : Graph := ⟨0, [(0, 5), (1, 5)], [(0, 1, 7)]⟩

/-- The single-edge pattern body the miner emits for `c5Graph` (dummy label-0
nodes, edge label 7), with its one edge removed. -/
def c5EdgeRemoved : Graph := ⟨0, [(0, 0), (1, 0)], []⟩

/-- A triangle with node labels 1, 2, 3 and edge labels 10, 11, 12. -/
def triangleGraph : Graph :=
  ⟨0, [(0, 1), (1, 2), (2, 3)], [(0, 1, 10), (1, 2, 11), (2, 0, 12)]⟩

/-- A 4-cycle with node labels 1, 2, 3, 4 and edge labels 10, 11, 12, 13. -/
def squareGraph : Graph :=
  ⟨1, [(0, 1), (1, 2), (2, 3), (3, 4)], [(0, 1, 10), (1, 2, 11), (2, 3, 12), (3, 0, 13)]⟩

/-! ## Supporting lemmas -/

theorem signature_set_id (g : Graph) (n : Nat) :
    signature { g with id := n } = signature g := rfl

theorem removeDupAux_ids : ∀ (gs : List Graph) (seen) (n i : Nat) (g' : Graph),
    (removeDupAux gs seen n)[i]? = some g' → g'.id = n + i := by
  intro gs
  induction gs with
  | nil => intro seen n i g' h; simp [removeDupAux] at h
  | cons g rest ih =>
    intro seen n i g' h
    by_cases hs : signature g ∈ seen
    · rw [removeDupAux, if_pos hs] at h
      exact ih seen n i g' h
    · rw [removeDupAux, if_neg hs] at h
      match i with
      | 0 =>
        simp only [List.getElem?_cons_zero, Option.some.injEq] at h
        subst h; rfl
      | i + 1 =>
        simp only [List.getElem?_cons_succ] at h
        have := ih (signature g :: seen) (n + 1) i g' h
        omega

theorem removeDupAux_sigs : ∀ (gs : List Graph) (seen) (n : Nat),
    ((removeDupAux gs seen n).map signature).Nodup ∧
    ∀ s ∈ (removeDupAux gs seen n).map signature, s ∉ seen := by
  intro gs
  induction gs with
  | nil => intro seen n; simp [removeDupAux]
  | cons g rest ih =>
    intro seen n
    by_cases hs : signature g ∈ seen
    · rw [removeDupAux, if_pos hs]; exact ih seen n
    · rw [removeDupAux, if_neg hs]
      obtain ⟨hnd, hdisj⟩ := ih (signature g :: seen) (n + 1)
      simp only [List.map_cons, signature_set_id]
      refine ⟨List.nodup_cons.mpr ⟨fun hmem => ?_, hnd⟩, ?_⟩
      · exact (hdisj _ hmem) (List.mem_cons_self _ _)
      · intro s hsmem
        rcases List.mem_cons.mp hsmem with rfl | hsmem
        · exact hs
        · intro hseen
          exact (hdisj _ hsmem) (List.mem_cons_of_mem _ hseen)

theorem removeDupAux_of_nodup : ∀ (gs : List Graph) (seen) (n : Nat),
    (gs.map signature).Nodup →
    (∀ s ∈ gs.map signature, s ∉ seen) →
    (∀ i g', gs[i]? = some g' → g'.id = n + i) →
    removeDupAux gs seen n = gs := by
  intro gs
  induction gs with
  | nil => intro seen n _ _ _; rfl
  | cons g rest ih =>
    intro seen n hnd hdisj hids
    have hgs : signature g ∉ seen :=
      hdisj _ (List.mem_map_of_mem signature (List.mem_cons_self _ _))
    rw [removeDupAux, if_neg hgs]
    have hid : g.id = n := by
      have := hids 0 g (by simp)
      omega
    have hset : { g with id := n } = g := by
      rw [← hid]
    rw [hset, ih (signature g :: seen) (n + 1)
      (List.nodup_cons.mp (by simpa using hnd)).2 ?_ ?_]
    · intro s hsmem
      rw [List.mem_cons]
      push_neg
      refine ⟨?_, hdisj s (List.mem_cons_of_mem _ hsmem)⟩
      intro heq
      subst heq
      exact (List.nodup_cons.mp (by simpa using hnd)).1 hsmem
    · intro i g' h
      have := hids (i + 1) g' (by simpa using h)
      omega

/-- C6: deduplication is idempotent — re-running `remove_duplicates` on its
output returns the same graphs, in the same order, with the same reassigned
ids. -/
theorem c6_remove_duplicates_idempotent (graphs : List Graph) :
    remove_duplicates (remove_duplicates graphs) = remove_duplicates graphs := by
  unfold remove_duplicates
  refine removeDupAux_of_nodup _ [] 0 (removeDupAux_sigs graphs [] 0).1 (by simp) ?_
  intro i g' h
  have := removeDupAux_ids graphs [] 0 i g' h
  omega

/-- C7: for `0 ≤ support ≤ total_graphs` and `total_graphs > 0`, the
discriminative power `support * (total_graphs - support) / total_graphs²`
lies in `[0, 1/4]`, and equals `1/4` exactly when
`support = total_graphs / 2`. -/
theorem c7_discriminative_power_range (support total_graphs : Nat)
    (hle : support ≤ total_graphs) (hpos : 0 < total_graphs) :
    0 ≤ calculate_discriminative_power support total_graphs ∧
    calculate_discriminative_power support total_graphs ≤ 1 / 4 ∧
    (calculate_discriminative_power support total_graphs = 1 / 4 ↔
      (support : Rat) = (total_graphs : Rat) / 2) := by
  have hne : total_graphs ≠ 0 := hpos.ne'
  have ht : (0 : Rat) < (total_graphs : Rat) := by exact_mod_cast hpos
  have hs0 : (0 : Rat) ≤ (support : Rat) := by positivity
  have hst : (support : Rat) ≤ (total_graphs : Rat) := by exact_mod_cast hle
  unfold calculate_discriminative_power
  rw [if_neg hne]
  set s : Rat := (support : Rat) with hsdef
  set t : Rat := (total_graphs : Rat) with htdef
  refine ⟨?_, ?_, ?_⟩
  · have h1 : 0 ≤ s * (t - s) := mul_nonneg hs0 (by linarith)
    positivity
  · rw [div_le_iff₀ (by positivity)]
    nlinarith [sq_nonneg (t - 2 * s)]
  · rw [div_eq_iff (by positivity), eq_div_iff (two_ne_zero)]
    constructor
    · intro h; nlinarith [sq_nonneg (t - 2 * s)]
    · intro h; nlinarith

/-- C7 witness: the bounds and the equality criterion at `support = 1`,
`total_graphs = 2`. -/
theorem c7_discriminative_power_range_witness :
    0 ≤ calculate_discriminative_power 1 2 ∧
    calculate_discriminative_power 1 2 ≤ 1 / 4 ∧
    (calculate_discriminative_power 1 2 = 1 / 4 ↔
      ((1 : Nat) : Rat) = ((2 : Nat) : Rat) / 2) :=
  c7_discriminative_power_range 1 2 (by norm_num) (by norm_num)

/-! ## CandidateGenerator: `generate_candidates` (C3, C4) -/

theorem domScan_eq (dv : List Int) : ∀ (l : List Int) (k : Nat),
    k + l.length ≤ dv.length →
    domScan dv l k =
      .ok (decide (∀ c < l.length, l.getD c 0 = 1 → dv.getD (k + c) 0 ≠ 0)) := by
  intro l
  induction l with
  | nil =>
    intro k _
    rw [domScan]
    have h : ∀ c < ([] : List Int).length, ([] : List Int).getD c 0 = 1 →
        dv.getD (k + c) 0 ≠ 0 := by
      intro c hc
      simp at hc
    rw [decide_eq_true h]
  | cons x rest ih =>
    intro k hlen
    have hk : k < dv.length := by
      simp only [List.length_cons] at hlen
      omega
    rw [domScan]
    by_cases hx : x = 1
    · rw [if_pos hx, if_pos hk]
      by_cases hz : dv.getD k 0 = 0
      · rw [if_pos hz]
        have hnot : ¬ (∀ c < (x :: rest).length, (x :: rest).getD c 0 = 1 →
            dv.getD (k + c) 0 ≠ 0) := by
          intro hall
          have h0 := hall 0 (by simp) (by simpa using hx)
          rw [Nat.add_zero] at h0
          exact h0 hz
        rw [decide_eq_false hnot]
      · rw [if_neg hz, ih (k + 1) (by simp only [List.length_cons] at hlen; omega)]
        congr 1
        rw [decide_eq_decide]
        constructor
        · intro hall c hc h1
          match c with
          | 0 =>
            rw [Nat.add_zero]
            exact hz
          | c + 1 =>
            have := hall c (by simpa using hc) (by simpa using h1)
            rw [show k + 1 + c = k + (c + 1) by omega] at this
            exact this
        · intro hall c hc h1
          have := hall (c + 1) (by simpa using hc) (by simpa using h1)
          rw [show k + (c + 1) = k + 1 + c by omega] at this
          exact this
    · rw [if_neg hx, ih (k + 1) (by simp only [List.length_cons] at hlen; omega)]
      congr 1
      rw [decide_eq_decide]
      constructor
      · intro hall c hc h1
        match c with
        | 0 =>
          simp only [List.getD_cons_zero] at h1
          exact absurd h1 hx
        | c + 1 =>
          have := hall c (by simpa using hc) (by simpa using h1)
          rw [show k + 1 + c = k + (c + 1) by omega] at this
          exact this
      · intro hall c hc h1
        have := hall (c + 1) (by simpa using hc) (by simpa using h1)
        rw [show k + (c + 1) = k + 1 + c by omega] at this
        exact this

theorem rowCandidates_eq (qv : List Int) : ∀ (db : List (List Int)) (j : Nat),
    (∀ dv ∈ db, qv.length ≤ dv.length) →
    ∃ out, rowCandidates qv db j = .ok out ∧
      (∀ x, x ∈ out ↔ ∃ i, i < db.length ∧ x = j + i ∧
        (∀ c < qv.length, qv.getD c 0 = 1 → (db.getD i []).getD c 0 ≠ 0)) ∧
      List.Pairwise (· < ·) out ∧ (∀ x ∈ out, j ≤ x) := by
  intro db
  induction db with
  | nil =>
    intro j _
    exact ⟨[], rfl, by simp, by simp, by simp⟩
  | cons dv rest ih =>
    intro j hlen
    obtain ⟨out, hout, hmem, hpw, hlb⟩ :=
      ih (j + 1) (fun d hd => hlen d (List.mem_cons_of_mem _ hd))
    have hscan := domScan_eq dv qv 0 (by simpa using hlen dv (List.mem_cons_self _ _))
    simp only [Nat.zero_add] at hscan
    by_cases hdom : ∀ c < qv.length, qv.getD c 0 = 1 → dv.getD c 0 ≠ 0
    · refine ⟨j :: out, ?_, ?_, ?_, ?_⟩
      · rw [rowCandidates, hscan, decide_eq_true hdom, hout]
        rfl
      · intro x
        simp only [List.mem_cons, hmem]
        constructor
        · rintro (rfl | ⟨i, hi, rfl, hd⟩)
          · exact ⟨0, by simp, by omega, by simpa using hdom⟩
          · exact ⟨i + 1, by simpa using hi, by omega, by simpa using hd⟩
        · rintro ⟨i, hi, rfl, hd⟩
          match i with
          | 0 => exact Or.inl (by omega)
          | i + 1 =>
            exact Or.inr ⟨i, by simpa using hi, by omega, by simpa using hd⟩
      · exact List.pairwise_cons.mpr ⟨fun x hx => by have := hlb x hx; omega, hpw⟩
      · intro x hx
        rcases List.mem_cons.mp hx with rfl | hx
        · omega
        · have := hlb x hx; omega
    · refine ⟨out, ?_, ?_, hpw, fun x hx => by have := hlb x hx; omega⟩
      · rw [rowCandidates, hscan, decide_eq_false hdom, hout]
        rfl
      · intro x
        rw [hmem]
        constructor
        · rintro ⟨i, hi, rfl, hd⟩
          exact ⟨i + 1, by simpa using hi, by omega, by simpa using hd⟩
        · rintro ⟨i, hi, rfl, hd⟩
          match i with
          | 0 => exact absurd (by simpa using hd) hdom
          | i + 1 =>
            refine ⟨i, by simpa using hi, by omega, by simpa using hd⟩

theorem generate_candidates_eq (db : List (List Int)) : ∀ (q : List (List Int)),
    (∀ qr ∈ q, ∀ dr ∈ db, qr.length ≤ dr.length) →
    ∃ res, generate_candidates db q = .ok res ∧ res.length = q.length ∧
      (∀ i x, x ∈ res.getD i [] ↔ i < q.length ∧ x < db.length ∧
        (∀ c < (q.getD i []).length, (q.getD i []).getD c 0 = 1 →
          (db.getD x []).getD c 0 ≠ 0)) ∧
      (∀ i, List.Pairwise (· < ·) (res.getD i [])) := by
  intro q
  induction q with
  | nil =>
    intro _
    refine ⟨[], rfl, rfl, ?_, ?_⟩
    · intro i x
      simp
    · intro i
      simp
  | cons qv rest ih =>
    intro hlen
    obtain ⟨res, hres, hreslen, hresmem, hrespw⟩ :=
      ih (fun qr hqr => hlen qr (List.mem_cons_of_mem _ hqr))
    obtain ⟨out, hout, hmem, hpw, _⟩ :=
      rowCandidates_eq qv db 0 (hlen qv (List.mem_cons_self _ _))
    refine ⟨out :: res, ?_, by simpa using hreslen, ?_, ?_⟩
    · rw [generate_candidates, List.mapM_cons, hout]
      rw [generate_candidates] at hres
      rw [hres]
      rfl
    · intro i x
      match i with
      | 0 =>
        simp only [List.getD_cons_zero, hmem x]
        constructor
        · rintro ⟨i, hi, rfl, hd⟩
          exact ⟨by simp, by simpa using hi, by simpa using hd⟩
        · rintro ⟨-, hx, hd⟩
          exact ⟨x, hx, by omega, by simpa using hd⟩
      | i + 1 =>
        simp only [List.getD_cons_succ, hresmem i x, List.length_cons]
        constructor
        · rintro ⟨hi, hx, hd⟩
          exact ⟨by omega, hx, by simpa using hd⟩
        · rintro ⟨hi, hx, hd⟩
          exact ⟨by omega, hx, by simpa using hd⟩
    · intro i
      match i with
      | 0 => simpa using hpw
      | i + 1 => simpa using hrespw i

theorem generate_candidates_binary_spec (db q : List (List Int)) (m n : Nat)
    (hmn : m ≤ n)
    (hdb : ∀ r ∈ db, r.length = n) (hq : ∀ r ∈ q, r.length = m)
    (hdbbin : ∀ r ∈ db, ∀ x ∈ r, x = 0 ∨ x = 1) :
    ∃ res, generate_candidates db q = .ok res ∧ res.length = q.length ∧
      (∀ i x, x ∈ res.getD i [] ↔ i < q.length ∧ x < db.length ∧
        (∀ c < m, (q.getD i []).getD c 0 = 1 → (db.getD x []).getD c 0 = 1)) ∧
      (∀ i, List.Pairwise (· < ·) (res.getD i [])) := by
  obtain ⟨res, h1, h2, h3, h4⟩ := generate_candidates_eq db q
    (fun qr hqr dr hdr => by rw [hq qr hqr, hdb dr hdr]; exact hmn)
  refine ⟨res, h1, h2, ?_, h4⟩
  intro i x
  rw [h3 i x]
  constructor
  · rintro ⟨hi, hx, hd⟩
    refine ⟨hi, hx, ?_⟩
    intro c hc h1c
    have hqi : (q.getD i []).length = m := by
      rw [List.getD_eq_getElem q [] hi]
      exact hq _ (List.getElem_mem hi)
    have hdx : (db.getD x []).length = n := by
      rw [List.getD_eq_getElem db [] hx]
      exact hdb _ (List.getElem_mem hx)
    have hne := hd c (by rw [hqi]; exact hc) h1c
    have hcn : c < (db.getD x []).length := by omega
    have helem : (db.getD x []).getD c 0 ∈ db.getD x [] := by
      rw [List.getD_eq_getElem (db.getD x []) 0 hcn]
      exact List.getElem_mem hcn
    have hrow : db.getD x [] ∈ db := by
      rw [List.getD_eq_getElem db [] hx]
      exact List.getElem_mem hx
    rcases hdbbin _ hrow _ helem with h0 | h1x
    · exact absurd h0 hne
    · exact h1x
  · rintro ⟨hi, hx, hd⟩
    refine ⟨hi, hx, ?_⟩
    intro c hc h1c
    have hqi : (q.getD i []).length = m := by
      rw [List.getD_eq_getElem q [] hi]
      exact hq _ (List.getElem_mem hi)
    rw [hd c (by rw [hqi] at hc; exact hc) h1c]
    simp

/-- C3: on binary matrices with a common column count `n`,
`generate_candidates` succeeds and returns, for each query row, exactly the
database row indices whose row dominates it (every query 1-column is a
database 1-column), listed in strictly increasing index order; in particular
the two end-to-end scenarios of the spec hold. -/
theorem c3_generate_candidates_domination (db q : List (List Int)) (n : Nat)
    (hdb : ∀ r ∈ db, r.length = n) (hq : ∀ r ∈ q, r.length = n)
    (hdbbin : ∀ r ∈ db, ∀ x ∈ r, x = 0 ∨ x = 1)
    (hqbin : ∀ r ∈ q, ∀ x ∈ r, x = 0 ∨ x = 1) :
    (∃ res, generate_candidates db q = .ok res ∧ res.length = q.length ∧
      (∀ i x, x ∈ res.getD i [] ↔ i < q.length ∧ x < db.length ∧
        (∀ c < n, (q.getD i []).getD c 0 = 1 → (db.getD x []).getD c 0 = 1)) ∧
      (∀ i, List.Pairwise (· < ·) (res.getD i []))) ∧
    generate_candidates [[1, 0], [1, 1]] [[1, 0]] = .ok [[0, 1]] ∧
    generate_candidates [[1, 0], [0, 1]] [[1, 1]] = .ok [[]] :=
  ⟨generate_candidates_binary_spec db q n n le_rfl hdb hq hdbbin, rfl, rfl⟩

/-- C3 witness: the characterization at the spec's first scenario,
`db = [[1,0],[1,1]]`, `query = [[1,0]]`, `n = 2`. -/
theorem c3_generate_candidates_domination_witness :
    (∃ res, generate_candidates [[1, 0], [1, 1]] [[1, 0]] = .ok res ∧
      res.length = ([[1, 0]] : List (List Int)).length ∧
      (∀ i x, x ∈ res.getD i [] ↔ i < ([[1, 0]] : List (List Int)).length ∧
        x < ([[1, 0], [1, 1]] : List (List Int)).length ∧
        (∀ c < 2, (([[1, 0]] : List (List Int)).getD i []).getD c 0 = 1 →
          (([[1, 0], [1, 1]] : List (List Int)).getD x []).getD c 0 = 1)) ∧
      (∀ i, List.Pairwise (· < ·) (res.getD i []))) ∧
    generate_candidates [[1, 0], [1, 1]] [[1, 0]] = .ok [[0, 1]] ∧
    generate_candidates [[1, 0], [0, 1]] [[1, 1]] = .ok [[]] :=
  c3_generate_candidates_domination [[1, 0], [1, 1]] [[1, 0]] 2
    (by decide) (by decide) (by decide) (by decide)

/-- C4 counterexample: with a 1-column query matrix against a 2-column
database matrix, `generate_candidates` does not reject the shape mismatch —
it runs the domination scan and returns candidates. -/
theorem c4_counterexample_no_rejection :
    generate_candidates [[1, 0], [1, 1]] [[1]] = .ok [[0, 1]] ∧
    (([[1]] : List (List Int)).getD 0 []).length = 1 ∧
    (([[1, 0], [1, 1]] : List (List Int)).getD 0 []).length = 2 :=
  ⟨rfl, rfl, rfl⟩

/-- C4 amended: `generate_candidates` performs no shape validation.  With a
query matrix of `m` columns and a database matrix of `n ≥ m` columns it
proceeds to scan and succeeds, returning the domination filter over the
query's own columns (a query 1-column beyond the database width would instead
surface as an `IndexError` mid-scan, not as a `ShapeMismatch` before it). -/
theorem c4_no_shape_validation (db q : List (List Int)) (m n : Nat)
    (hmn : m ≤ n)
    (hdb : ∀ r ∈ db, r.length = n) (hq : ∀ r ∈ q, r.length = m)
    (hdbbin : ∀ r ∈ db, ∀ x ∈ r, x = 0 ∨ x = 1) :
    ∃ res, generate_candidates db q = .ok res ∧ res.length = q.length ∧
      (∀ i x, x ∈ res.getD i [] ↔ i < q.length ∧ x < db.length ∧
        (∀ c < m, (q.getD i []).getD c 0 = 1 → (db.getD x []).getD c 0 = 1)) ∧
      (∀ i, List.Pairwise (· < ·) (res.getD i [])) :=
  generate_candidates_binary_spec db q m n hmn hdb hq hdbbin

/-- C4 witness: the mismatched-shape scan at `query = [[1]]`,
`db = [[1,0],[1,1]]` (`m = 1 < 2 = n`) succeeds. -/
theorem c4_no_shape_validation_witness :
    ∃ res, generate_candidates [[1, 0], [1, 1]] [[1]] = .ok res ∧
      res.length = ([[1]] : List (List Int)).length ∧
      (∀ i x, x ∈ res.getD i [] ↔ i < ([[1]] : List (List Int)).length ∧
        x < ([[1, 0], [1, 1]] : List (List Int)).length ∧
        (∀ c < 1, (([[1]] : List (List Int)).getD i []).getD c 0 = 1 →
          (([[1, 0], [1, 1]] : List (List Int)).getD x []).getD c 0 = 1)) ∧
      (∀ i, List.Pairwise (· < ·) (res.getD i [])) :=
  c4_no_shape_validation [[1, 0], [1, 1]] [[1]] 1 2
    (by decide) (by decide) (by decide) (by decide)

/-! ## GraphStore: `parse_graph_dataset` error behavior (C9) -/

/-- C9 amended: the parser raises `IndexError` on a `v`/`e` line with too few
tokens, `ValueError` on an unparsable integer (Python's built-in exceptions,
not a dedicated `ParseError`), and silently appends an edge line that
references a node id never declared in the current graph. -/
theorem c9_amended_parser_errors :
    (∀ (st : ParseState) (g : Graph) (line : String) (sa sb sl : List Char)
        (a b l : Int),
      st.current = some g →
      pyStrip line.data ≠ [] →
      (pyStrip line.data).head? ≠ some '#' →
      pyTokens (pyStrip line.data) = [['e'], sa, sb, sl] →
      pyInt? sa = some a → pyInt? sb = some b → pyInt? sl = some l →
      a ∉ nodeKeys g ∨ b ∉ nodeKeys g →
      processLine st line = .ok { st with current := some (g.add_edge a b l) }) ∧
    (∀ (st : ParseState) (line : String) (sa : List Char) (a : Int),
      pyStrip line.data ≠ [] →
      (pyStrip line.data).head? ≠ some '#' →
      pyTokens (pyStrip line.data) = [['v'], sa] →
      pyInt? sa = some a →
      processLine st line = .error .indexError) ∧
    (∀ (st : ParseState) (line : String) (sa sb : List Char),
      pyStrip line.data ≠ [] →
      (pyStrip line.data).head? ≠ some '#' →
      pyTokens (pyStrip line.data) = [['v'], sa, sb] →
      pyInt? sa = none →
      processLine st line = .error .valueError) := by
  refine ⟨?_, ?_, ?_⟩
  · intro st g line sa sb sl a b l hcur hne hhash htok ha hb hl hdangling
    simp only [processLine, hne, hhash, htok, ha, hb, hl, hcur, List.headD_cons,
      List.getElem?_cons_zero, List.getElem?_cons_succ, if_false, ite_false]
    simp
  · intro st line sa a hne hhash htok ha
    simp only [processLine, hne, hhash, htok, ha, List.headD_cons,
      List.getElem?_cons_zero, List.getElem?_cons_succ]
    simp
  · intro st line sa sb hne hhash htok ha
    simp only [processLine, hne, hhash, htok, ha, List.headD_cons,
      List.getElem?_cons_zero, List.getElem?_cons_succ]
    simp

/-- C9 counterexample: a dataset whose edge line references undeclared node
id 5 parses successfully — the claimed `ParseError` is never raised. -/
theorem c9_counterexample_dangling_edge_accepted :
    parse_graph_dataset ["#", "v 0 1", "e 0 5 2"] =
      .ok [⟨0, [(0, 1)], [(0, 5, 2)]⟩] ∧
    (5 : Int) ∉ nodeKeys ⟨0, [(0, 1)], [(0, 5, 2)]⟩ :=
  ⟨rfl, by decide⟩

/-- C9 witness: the three amended behaviors at concrete lines `e 0 5 2`
(dangling target accepted), `v 0` (IndexError), `v x 1` (ValueError). -/
theorem c9_amended_parser_errors_witness :
    processLine ⟨[], some ⟨0, [(0, 1)], []⟩, 1⟩ "e 0 5 2" =
      .ok ⟨[], some ⟨0, [(0, 1)], [(0, 5, 2)]⟩, 1⟩ ∧
    processLine ⟨[], some ⟨0, [], []⟩, 1⟩ "v 0" = .error .indexError ∧
    processLine ⟨[], some ⟨0, [], []⟩, 1⟩ "v x 1" = .error .valueError :=
  ⟨c9_amended_parser_errors.1 ⟨[], some ⟨0, [(0, 1)], []⟩, 1⟩ ⟨0, [(0, 1)], []⟩
      "e 0 5 2" ['0'] ['5'] ['2'] 0 5 2 rfl (by decide) (by decide) (by decide)
      (by decide) (by decide) (by decide) (by decide),
   c9_amended_parser_errors.2.1 ⟨[], some ⟨0, [], []⟩, 1⟩ "v 0" ['0'] 0
      (by decide) (by decide) (by decide) (by decide),
   c9_amended_parser_errors.2.2 ⟨[], some ⟨0, [], []⟩, 1⟩ "v x 1" ['x'] ['1']
      (by decide) (by decide) (by decide) (by decide)⟩

/-! ## IsomorphismOracle and FeatureIndexer (C1, C2, C5) -/

theorem mem_dedupFirstAux : ∀ (l seen : List Int) (x : Int),
    x ∈ dedupFirstAux l seen ↔ x ∈ l ∧ x ∉ seen := by
  intro l
  induction l with
  | nil => intro seen x; simp [dedupFirstAux]
  | cons y ys ih =>
    intro seen x
    rw [dedupFirstAux]
    by_cases hy : y ∈ seen
    · rw [if_pos hy, ih]
      constructor
      · rintro ⟨h1, h2⟩; exact ⟨List.mem_cons_of_mem _ h1, h2⟩
      · rintro ⟨h1, h2⟩
        rcases List.mem_cons.mp h1 with rfl | h1
        · exact absurd hy h2
        · exact ⟨h1, h2⟩
    · rw [if_neg hy]
      constructor
      · intro hmem
        rcases List.mem_cons.mp hmem with rfl | hmem
        · exact ⟨List.mem_cons_self _ _, hy⟩
        · obtain ⟨h1, h2⟩ := (ih (y :: seen) x).mp hmem
          exact ⟨List.mem_cons_of_mem _ h1, fun hc => h2 (List.mem_cons_of_mem _ hc)⟩
      · rintro ⟨h1, h2⟩
        by_cases hxy : x = y
        · subst hxy; exact List.mem_cons_self _ _
        · rcases List.mem_cons.mp h1 with rfl | h1
          · exact absurd rfl hxy
          · refine List.mem_cons_of_mem _ ((ih (y :: seen) x).mpr ⟨h1, ?_⟩)
            intro hc
            rcases List.mem_cons.mp hc with rfl | hc
            · exact hxy rfl
            · exact h2 hc

theorem nodup_dedupFirstAux : ∀ (l seen : List Int), (dedupFirstAux l seen).Nodup := by
  intro l
  induction l with
  | nil => intro seen; simp [dedupFirstAux]
  | cons y ys ih =>
    intro seen
    rw [dedupFirstAux]
    by_cases hy : y ∈ seen
    · rw [if_pos hy]; exact ih seen
    · rw [if_neg hy]
      refine List.nodup_cons.mpr ⟨?_, ih _⟩
      intro hc
      exact ((mem_dedupFirstAux ys (y :: seen) y).mp hc).2 (List.mem_cons_self _ _)

theorem mem_dedupFirst (l : List Int) (x : Int) : x ∈ dedupFirst l ↔ x ∈ l := by
  rw [dedupFirst, mem_dedupFirstAux]
  simp

theorem nodup_dedupFirst (l : List Int) : (dedupFirst l).Nodup := nodup_dedupFirstAux l []

theorem nxNodeList_nodup (g : Graph) : (nxNodeList g).Nodup := nodup_dedupFirst _

theorem mem_injections : ∀ (k : Nat) (tns pick : List Int), tns.Nodup →
    (pick ∈ injections k tns ↔
      pick.length = k ∧ pick.Nodup ∧ ∀ x ∈ pick, x ∈ tns) := by
  intro k
  induction k with
  | zero =>
    intro tns pick _
    rw [injections]
    simp only [List.mem_singleton]
    constructor
    · rintro rfl; simp
    · rintro ⟨hlen, -, -⟩
      exact List.eq_nil_of_length_eq_zero hlen
  | succ k ih =>
    intro tns pick htns
    rw [injections]
    simp only [List.mem_flatMap, List.mem_map]
    constructor
    · rintro ⟨t, ht, q, hq, rfl⟩
      obtain ⟨hlen, hnd, hsub⟩ := (ih (tns.erase t) q (htns.erase t)).mp hq
      refine ⟨by simp [hlen], List.nodup_cons.mpr ⟨?_, hnd⟩, ?_⟩
      · intro hc
        exact (List.Nodup.not_mem_erase htns) (hsub t hc)
      · intro x hx
        rcases List.mem_cons.mp hx with rfl | hx
        · exact ht
        · exact List.mem_of_mem_erase (hsub x hx)
    · rintro ⟨hlen, hnd, hsub⟩
      match pick with
      | x :: rest =>
        refine ⟨x, hsub x (List.mem_cons_self _ _), rest, ?_, rfl⟩
        refine (ih (tns.erase x) rest (htns.erase x)).mpr
          ⟨by simpa using hlen, (List.nodup_cons.mp hnd).2, ?_⟩
        intro y hy
        have hyx : y ≠ x := fun h => (List.nodup_cons.mp hnd).1 (h ▸ hy)
        exact (List.mem_erase_of_ne hyx).mpr (hsub y (List.mem_cons_of_mem _ hy))

theorem lookupF_map (f : Int → Int) : ∀ (ns : List Int), ns.Nodup →
    ∀ u ∈ ns, lookupF ns (ns.map f) u = f u := by
  intro ns
  induction ns with
  | nil => intro _ u hu; simp at hu
  | cons x xs ih =>
    intro hnd u hu
    rcases List.mem_cons.mp hu with rfl | hu
    · simp [lookupF, List.lookup]
    · have hux : u ≠ x := fun h => (List.nodup_cons.mp hnd).1 (h ▸ hu)
      have : (u == x) = false := beq_eq_false_iff_ne.mpr hux
      simp only [lookupF, List.map_cons, List.zip_cons_cons, List.lookup, this]
      exact ih (List.nodup_cons.mp hnd).2 u hu

theorem inducedEmbedding_congr (p t : Graph) (f f2 : Int → Int)
    (hff : ∀ u ∈ nxNodeList p, f u = f2 u) :
    IsInducedEmbedding p t f → IsInducedEmbedding p t f2 := by
  rintro ⟨h1, h2, h3, h4⟩
  refine ⟨?_, ?_, ?_, ?_⟩
  · intro u hu; rw [← hff u hu]; exact h1 u hu
  · intro u hu v hv heq
    exact h2 u hu v hv (by rw [hff u hu, hff v hv]; exact heq)
  · intro u hu; rw [← hff u hu]; exact h3 u hu
  · intro u hu v hv
    rw [← hff u hu, ← hff v hv]
    exact h4 u hu v hv

/-- C2 amended: the oracle returns true exactly when a label-preserving
*induced* embedding of the pattern into the target exists — pattern edges map
to equal-labeled target edges AND non-adjacent pattern node pairs stay
non-adjacent (NetworkX `subgraph_is_isomorphic` semantics), not the spec's
monomorphism. -/
theorem c2_oracle_decides_induced_iso (p t : Graph) :
    is_subgraph_isomorphic p t = true ↔ InducedSubgraphIso p t := by
  rw [is_subgraph_isomorphic, List.any_eq_true]
  constructor
  · rintro ⟨pick, -, hcheck⟩
    exact ⟨_, of_decide_eq_true hcheck⟩
  · rintro ⟨f, hf⟩
    refine ⟨(nxNodeList p).map f, ?_, ?_⟩
    · refine (mem_injections _ _ _ (nxNodeList_nodup t)).mpr
        ⟨List.length_map _ _, ?_, ?_⟩
      · exact List.Nodup.map_on hf.2.1 (nxNodeList_nodup p)
      · intro x hx
        obtain ⟨u, hu, rfl⟩ := List.mem_map.mp hx
        exact hf.1 u hu
    · apply decide_eq_true
      exact inducedEmbedding_congr p t f _
        (fun u hu => (lookupF_map f _ (nxNodeList_nodup p) u hu).symm) hf

/-- C2 counterexample: a pattern of two isolated label-5 nodes has an obvious
label-preserving monomorphism into the target with the same two nodes plus an
edge, yet `is_subgraph_isomorphic` answers `false` (the induced condition
rejects the extra target edge), refuting the claim's monomorphism contract. -/
theorem c2_counterexample_mono_not_detected :
    is_subgraph_isomorphic twoNodesNoEdge twoNodesOneEdge = false ∧
    SpecSubgraphIsomorphic twoNodesNoEdge twoNodesOneEdge :=
  ⟨by decide, ⟨fun v => v, by decide⟩⟩

theorem monoEmbedding_congr (p t : Graph) (f f2 : Int → Int)
    (hwf : ∀ e ∈ p.edges, e.1 ∈ nodeKeys p ∧ e.2.1 ∈ nodeKeys p)
    (hff : ∀ u ∈ nodeKeys p, f u = f2 u) :
    IsMonoEmbedding p t f → IsMonoEmbedding p t f2 := by
  rintro ⟨h1, h2, h3, h4⟩
  refine ⟨?_, ?_, ?_, ?_⟩
  · intro u hu; rw [← hff u hu]; exact h1 u hu
  · intro u hu v hv heq
    exact h2 u hu v hv (by rw [hff u hu, hff v hv]; exact heq)
  · intro u hu; rw [← hff u hu]; exact h3 u hu
  · intro e he
    obtain ⟨hs, ht2⟩ := hwf e he
    rw [← hff e.1 hs, ← hff e.2.1 ht2]
    exact h4 e he

/-- On patterns satisfying the data-model invariant (every edge endpoint is a
declared node), `specContains` decides the spec's monomorphism containment. -/
theorem specContains_iff (t p : Graph)
    (hwf : ∀ e ∈ p.edges, e.1 ∈ nodeKeys p ∧ e.2.1 ∈ nodeKeys p) :
    specContains t p = true ↔ SpecSubgraphIsomorphic p t := by
  rw [specContains, List.any_eq_true]
  constructor
  · rintro ⟨pick, -, hcheck⟩
    exact ⟨_, of_decide_eq_true hcheck⟩
  · rintro ⟨f, hf⟩
    refine ⟨(dedupFirst (nodeKeys p)).map f, ?_, ?_⟩
    · refine (mem_injections _ _ _ (nodup_dedupFirst _)).mpr
        ⟨List.length_map _ _, ?_, ?_⟩
      · refine List.Nodup.map_on ?_ (nodup_dedupFirst _)
        intro x hx y hy
        exact hf.2.1 x ((mem_dedupFirst _ _).mp hx) y ((mem_dedupFirst _ _).mp hy)
      · intro x hx
        obtain ⟨u, hu, rfl⟩ := List.mem_map.mp hx
        exact (mem_dedupFirst _ _).mpr (hf.1 u ((mem_dedupFirst _ _).mp hu))
    · apply decide_eq_true
      refine monoEmbedding_congr p t f _ hwf ?_ hf
      intro u hu
      exact (lookupF_map f _ (nodup_dedupFirst _) u ((mem_dedupFirst _ _).mpr hu)).symm

/-- C1 (code bug): with the one-pattern index `[twoNodesNoEdge]`, the query
`twoNodesNoEdge` is subgraph-isomorphic (spec's monomorphism sense) to the
database graph `twoNodesOneEdge`, yet the query's feature vector is `[1]`
while the database graph's is `[0]` — not component-wise `≤` — and
`generate_candidates` consequently excludes the true positive (empty
candidate set). -/
theorem c1_candidate_soundness_code_bug :
    SpecSubgraphIsomorphic twoNodesNoEdge twoNodesOneEdge ∧
    convert_graphs_to_features [twoNodesNoEdge] [exPattern] = [[1]] ∧
    convert_graphs_to_features [twoNodesOneEdge] [exPattern] = [[0]] ∧
    generate_candidates (convert_graphs_to_features [twoNodesOneEdge] [exPattern])
      (convert_graphs_to_features [twoNodesNoEdge] [exPattern]) = .ok [[]] :=
  ⟨⟨fun v => v, by decide⟩, by decide, by decide, rfl⟩

/-- C5 (code bug): on the single-graph database `[c5Graph]` (an edge labeled
7 between two label-5 nodes), the fallback enumerator emits the single-edge
pattern with dummy label-0 nodes and reported support 1; the sub-pattern
obtained by removing that pattern's one edge (two isolated label-0 nodes) is
contained in no database graph, so its support 0 is strictly below the
reported support 1, violating support monotonicity. -/
theorem c5_support_monotonicity_code_bug :
    mine_frequent_subgraphs_simple [c5Graph] 5 =
      [⟨0, ⟨0, [(0, 0), (1, 0)], [(0, 1, 7)]⟩, 1, {0}, 0⟩,
       ⟨1, ⟨1, [(0, 5)], []⟩, 1, {0}, 0⟩,
       ⟨2, ⟨2, [(0, 5), (1, 0)], [(0, 1, 7)]⟩, 1, {0}, 0⟩] ∧
    c5EdgeRemoved.nodes = [(0, 0), (1, 0)] ∧ c5EdgeRemoved.edges = [] ∧
    ¬ SpecSubgraphIsomorphic c5EdgeRemoved c5Graph ∧
    specSupport [c5Graph] c5EdgeRemoved = 0 := by
  refine ⟨?_, rfl, rfl, ?_, by decide⟩
  · have h : minSupportCount (List.length [c5Graph]) 5 = 0 := by
      norm_num [minSupportCount]
    unfold mine_frequent_subgraphs_simple
    rw [h]
    decide
  · intro hspec
    have h2 := (specContains_iff c5Graph c5EdgeRemoved (by decide)).mpr hspec
    rw [show specContains c5Graph c5EdgeRemoved = false from by decide] at h2
    simp at h2

/-! ## PatternMiner fallback enumerator structure (C10) -/

theorem mem_emitPatterns {κ : Type} : ∀ (t : List (κ × Finset Nat)) (minc : Int)
    (sid : Nat) (build : Nat → κ → Graph) (p : SubgraphPattern),
    p ∈ emitPatterns minc sid build t → ∃ i k, p.graph = build i k := by
  intro t
  induction t with
  | nil => intro minc sid build p h; simp [emitPatterns] at h
  | cons e rest ih =>
    intro minc sid build p h
    match e with
    | (k, s) =>
      rw [emitPatterns] at h
      by_cases hc : minc ≤ (s.card : Int)
      · rw [if_pos hc] at h
        rcases List.mem_cons.mp h with rfl | h
        · exact ⟨sid, k, rfl⟩
        · exact ih minc (sid + 1) build p h
      · rw [if_neg hc] at h
        exact ih minc sid build p h

theorem emitPatterns_length_le {κ : Type} : ∀ (t : List (κ × Finset Nat))
    (minc : Int) (sid : Nat) (build : Nat → κ → Graph),
    (emitPatterns minc sid build t).length ≤ t.length := by
  intro t
  induction t with
  | nil => intro minc sid build; simp [emitPatterns]
  | cons e rest ih =>
    intro minc sid build
    match e with
    | (k, s) =>
      rw [emitPatterns]
      by_cases hc : minc ≤ (s.card : Int)
      · rw [if_pos hc]
        simpa using ih minc (sid + 1) build
      · rw [if_neg hc]
        have := ih minc sid build
        simp only [List.length_cons]
        omega

theorem upsert_unit_length_le : ∀ (tb : List (Unit × Finset Nat)) (i : Nat),
    tb.length ≤ 1 → (upsert tb () i).length ≤ 1 := by
  intro tb i h
  match tb with
  | [] => simp [upsert]
  | (u, s) :: rest =>
    cases u
    rw [upsert, if_pos rfl]
    simpa using h

theorem foldl_upsert_unit_le (gid : Nat) : ∀ (ks : List Unit)
    (tb : List (Unit × Finset Nat)), tb.length ≤ 1 →
    (ks.foldl (fun t2 k => upsert t2 k gid) tb).length ≤ 1 := by
  intro ks
  induction ks with
  | nil => intro tb h; simpa using h
  | cons k rest ih =>
    intro tb h
    cases k
    exact ih _ (upsert_unit_length_le tb gid h)

theorem tableOf_unit_length_le (keysOf : Graph → List Unit) (gs : List Graph) :
    (tableOf keysOf gs).length ≤ 1 := by
  suffices h : ∀ (gs2 : List Graph) (tb : List (Unit × Finset Nat)),
      tb.length ≤ 1 →
      (gs2.foldl (fun t g => (keysOf g).foldl (fun t2 k => upsert t2 k g.id) t)
        tb).length ≤ 1 by
    exact h gs [] (by simp)
  intro gs2
  induction gs2 with
  | nil => intro tb h; simpa using h
  | cons g rest ih =>
    intro tb h
    exact ih _ (foldl_upsert_unit_le g.id (keysOf g) tb h)

theorem buildSingleEdge_shape (pid : Nat) (label : Int) :
    (buildSingleEdge pid label).nodes = [(0, 0), (1, 0)] ∧
    (buildSingleEdge pid label).edges = [(0, 1, label)] := ⟨rfl, rfl⟩

theorem buildSingleNode_shape (pid : Nat) (label : Int) :
    (buildSingleNode pid label).nodes = [(0, label)] ∧
    (buildSingleNode pid label).edges = [] := ⟨rfl, rfl⟩

theorem buildNodeEdge_shape (pid : Nat) (k : Int × Int) :
    (buildNodeEdge pid k).nodes = [(0, k.1), (1, 0)] ∧
    (buildNodeEdge pid k).edges = [(0, 1, k.2)] := ⟨rfl, rfl⟩

theorem buildPath2_shape (pid : Nat) (k : Int × Int × Int × Int × Int) :
    (buildPath2 pid k).nodes = [(0, k.1), (1, k.2.2.1), (2, k.2.2.2.2)] ∧
    (buildPath2 pid k).edges = [(0, 1, k.2.1), (1, 2, k.2.2.2.1)] := ⟨rfl, rfl⟩

theorem buildTriangle_shape (pid : Nat) (k : (Int × Int × Int) × (Int × Int × Int)) :
    (buildTriangle pid k).nodes = [(0, 0), (1, 0), (2, 0)] ∧
    (buildTriangle pid k).edges = [(0, 1, 0), (1, 2, 0), (2, 0, 0)] := ⟨rfl, rfl⟩

theorem buildPath3_shape (pid : Nat) (k : Int × Int × Int × Int × Int × Int × Int) :
    (buildPath3 pid k).nodes =
      [(0, k.1), (1, k.2.2.1), (2, k.2.2.2.2.1), (3, k.2.2.2.2.2.2)] ∧
    (buildPath3 pid k).edges =
      [(0, 1, k.2.1), (1, 2, k.2.2.2.1), (2, 3, k.2.2.2.2.2.1)] := ⟨rfl, rfl⟩

theorem buildSquare_shape (pid : Nat) (k : Unit) :
    (buildSquare pid k).nodes = [(0, 0), (1, 0), (2, 0), (3, 0)] ∧
    (buildSquare pid k).edges = [(0, 1, 0), (1, 2, 0), (2, 3, 0), (3, 0, 0)] :=
  ⟨rfl, rfl⟩

theorem updateAssoc_not_mem : ∀ (l : List (Int × Int)) (k v : Int),
    k ∉ l.map Prod.fst → updateAssoc l k v = l ++ [(k, v)] := by
  intro l
  induction l with
  | nil => intro k v _; rfl
  | cons e rest ih =>
    intro k v h
    match e with
    | (k2, v2) =>
      simp only [List.map_cons, List.mem_cons] at h
      push_neg at h
      rw [updateAssoc, if_neg (fun hc => h.1 hc.symm), ih k v h.2]
      rfl

theorem star_fold (pid : Nat) : ∀ (l : List (Int × Int)) (i : Nat) (g : Graph),
    (∀ x ∈ g.nodes.map Prod.fst, x < (i : Int)) →
    (((List.enumFrom i l).foldl
        (fun g2 p => (g2.add_node (p.1 : Int) p.2.1).add_edge 0 (p.1 : Int) p.2.2)
        g).nodes.length = g.nodes.length + l.length ∧
     (∀ x ∈ ((List.enumFrom i l).foldl
        (fun g2 p => (g2.add_node (p.1 : Int) p.2.1).add_edge 0 (p.1 : Int) p.2.2)
        g).nodes.map Prod.fst, x < ((i + l.length : Nat) : Int)) ∧
     ((List.enumFrom i l).foldl
        (fun g2 p => (g2.add_node (p.1 : Int) p.2.1).add_edge 0 (p.1 : Int) p.2.2)
        g).edges.length = g.edges.length + l.length) := by
  intro l
  induction l with
  | nil =>
    intro i g hbound
    refine ⟨by simp, ?_, by simp⟩
    simpa using hbound
  | cons e rest ih =>
    intro i g hbound
    have hnotmem : (i : Int) ∉ g.nodes.map Prod.fst := by
      intro hc
      have := hbound _ hc
      omega
    have hupd : updateAssoc g.nodes (i : Int) e.1 = g.nodes ++ [((i : Int), e.1)] :=
      updateAssoc_not_mem g.nodes (i : Int) e.1 hnotmem
    have hstep :
        ((g.add_node (i : Int) e.1).add_edge 0 (i : Int) e.2).nodes =
          g.nodes ++ [((i : Int), e.1)] := by
      simp [Graph.add_node, Graph.add_edge, hupd]
    have hbound2 : ∀ x ∈ ((g.add_node (i : Int) e.1).add_edge 0 (i : Int) e.2).nodes.map
        Prod.fst, x < ((i + 1 : Nat) : Int) := by
      rw [hstep]
      intro x hx
      simp only [List.map_append, List.mem_append] at hx
      rcases hx with hx | hx
      · have := hbound x hx
        push_cast
        omega
      · simp at hx
        subst hx
        push_cast
        omega
    obtain ⟨h1, h2, h3⟩ := ih (i + 1) _ hbound2
    have hsn : ((g.add_node (i : Int) e.1).add_edge 0 (i : Int) e.2).nodes.length =
        g.nodes.length + 1 := by
      rw [hstep]
      simp
    have hse : ((g.add_node (i : Int) e.1).add_edge 0 (i : Int) e.2).edges.length =
        g.edges.length + 1 := by
      simp [Graph.add_node, Graph.add_edge]
    rw [List.enumFrom_cons]
    refine ⟨?_, ?_, ?_⟩
    · rw [List.foldl_cons, h1, hsn]
      simp only [List.length_cons]
      omega
    · rw [List.foldl_cons]
      intro x hx
      have := h2 x hx
      simp only [List.length_cons] at this ⊢
      push_cast at this ⊢
      omega
    · rw [List.foldl_cons, h3, hse]
      simp only [List.length_cons]
      omega

theorem buildStar_shape (pid : Nat) (k : Int × List (Int × Int)) :
    (buildStar pid k).num_nodes = 1 + k.2.length ∧
    (buildStar pid k).num_edges = k.2.length := by
  have h := star_fold pid k.2 1 ((Graph.mk pid [] []).add_node 0 k.1) (by
    intro x hx
    simp [Graph.add_node, updateAssoc] at hx
    omega)
  have hinodes : ((Graph.mk pid [] []).add_node 0 k.1).nodes.length = 1 := rfl
  have hiedges : ((Graph.mk pid [] []).add_node 0 k.1).edges.length = 0 := rfl
  refine ⟨?_, ?_⟩
  · show (buildStar pid k).nodes.length = 1 + k.2.length
    rw [buildStar, h.1, hinodes]
  · show (buildStar pid k).edges.length = k.2.length
    rw [buildStar, h.2.2, hiedges]
    omega

theorem filter_emitPatterns_nil {κ : Type} (minc : Int) (sid : Nat)
    (build : Nat → κ → Graph) (t : List (κ × Finset Nat))
    (pred : SubgraphPattern → Bool)
    (h : ∀ (p : SubgraphPattern) i k, p.graph = build i k → pred p = false) :
    (emitPatterns minc sid build t).filter pred = [] := by
  rw [List.filter_eq_nil_iff]
  intro p hp
  obtain ⟨i, k, hg⟩ := mem_emitPatterns t minc sid build p hp
  rw [h p i k hg]
  simp

/-- C10: every pattern the fallback enumerator emits with 3 nodes and 3 edges
(a triangle) has the all-zero label body `0-0-0`, and every pattern with 4
nodes and 4 edges (a 4-cycle) has the all-zero 4-cycle body, regardless of
the labels of the supporting occurrences; moreover all 4-cycle occurrences
share the single constant signature key, so at most one 4-cycle pattern is
ever emitted. -/
theorem c10_zeroed_motif_bodies (gs : List Graph) (pct : Rat) :
    (∀ p ∈ mine_frequent_subgraphs_simple gs pct,
      (p.graph.num_nodes = 3 ∧ p.graph.num_edges = 3 →
        p.graph.nodes = [(0, 0), (1, 0), (2, 0)] ∧
        p.graph.edges = [(0, 1, 0), (1, 2, 0), (2, 0, 0)]) ∧
      (p.graph.num_nodes = 4 ∧ p.graph.num_edges = 4 →
        p.graph.nodes = [(0, 0), (1, 0), (2, 0), (3, 0)] ∧
        p.graph.edges = [(0, 1, 0), (1, 2, 0), (2, 3, 0), (3, 0, 0)])) ∧
    ((mine_frequent_subgraphs_simple gs pct).filter
      (fun p => decide (p.graph.num_nodes = 4 ∧ p.graph.num_edges = 4))).length ≤ 1 := by
  constructor
  · intro p hp
    rw [mine_frequent_subgraphs_simple] at hp
    simp only [List.mem_append] at hp
    rcases hp with (((((((hp | hp) | hp) | hp) | hp) | hp) | hp) | hp)
    · obtain ⟨i, k, hg⟩ := mem_emitPatterns _ _ _ _ _ hp
      constructor
      · rintro ⟨hn, -⟩
        rw [hg] at hn
        rw [show (buildSingleEdge i k).num_nodes = 2 from rfl] at hn
        omega
      · rintro ⟨hn, -⟩
        rw [hg] at hn
        rw [show (buildSingleEdge i k).num_nodes = 2 from rfl] at hn
        omega
    · obtain ⟨i, k, hg⟩ := mem_emitPatterns _ _ _ _ _ hp
      constructor
      · rintro ⟨hn, -⟩
        rw [hg] at hn
        rw [show (buildSingleNode i k).num_nodes = 1 from rfl] at hn
        omega
      · rintro ⟨hn, -⟩
        rw [hg] at hn
        rw [show (buildSingleNode i k).num_nodes = 1 from rfl] at hn
        omega
    · obtain ⟨i, k, hg⟩ := mem_emitPatterns _ _ _ _ _ hp
      constructor
      · rintro ⟨hn, -⟩
        rw [hg] at hn
        rw [show (buildNodeEdge i k).num_nodes = 2 from rfl] at hn
        omega
      · rintro ⟨hn, -⟩
        rw [hg] at hn
        rw [show (buildNodeEdge i k).num_nodes = 2 from rfl] at hn
        omega
    · obtain ⟨i, k, hg⟩ := mem_emitPatterns _ _ _ _ _ hp
      constructor
      · rintro ⟨-, he⟩
        rw [hg] at he
        rw [show (buildPath2 i k).num_edges = 2 from rfl] at he
        omega
      · rintro ⟨hn, -⟩
        rw [hg] at hn
        rw [show (buildPath2 i k).num_nodes = 3 from rfl] at hn
        omega
    · obtain ⟨i, k, hg⟩ := mem_emitPatterns _ _ _ _ _ hp
      constructor
      · rintro ⟨-, -⟩
        rw [hg]
        exact ⟨(buildTriangle_shape i k).1, (buildTriangle_shape i k).2⟩
      · rintro ⟨hn, -⟩
        rw [hg] at hn
        rw [show (buildTriangle i k).num_nodes = 3 from rfl] at hn
        omega
    · obtain ⟨i, k, hg⟩ := mem_emitPatterns _ _ _ _ _ hp
      constructor
      · rintro ⟨hn, -⟩
        rw [hg] at hn
        rw [show (buildPath3 i k).num_nodes = 4 from rfl] at hn
        omega
      · rintro ⟨-, he⟩
        rw [hg] at he
        rw [show (buildPath3 i k).num_edges = 3 from rfl] at he
        omega
    · obtain ⟨i, k, hg⟩ := mem_emitPatterns _ _ _ _ _ hp
      have hs := buildStar_shape i k
      constructor
      · rintro ⟨hn, he⟩
        rw [hg] at hn he
        omega
      · rintro ⟨hn, he⟩
        rw [hg] at hn he
        omega
    · obtain ⟨i, k, hg⟩ := mem_emitPatterns _ _ _ _ _ hp
      constructor
      · rintro ⟨hn, -⟩
        rw [hg] at hn
        rw [show (buildSquare i k).num_nodes = 4 from rfl] at hn
        omega
      · rintro ⟨-, -⟩
        rw [hg]
        exact ⟨(buildSquare_shape i k).1, (buildSquare_shape i k).2⟩
  · rw [mine_frequent_subgraphs_simple]
    simp only [List.filter_append, List.length_append]
    rw [filter_emitPatterns_nil _ _ buildSingleEdge _ _ (by
      intro p i k hg
      rw [decide_eq_false]
      rintro ⟨hn, -⟩
      rw [hg, show (buildSingleEdge i k).num_nodes = 2 from rfl] at hn
      omega)]
    rw [filter_emitPatterns_nil _ _ buildSingleNode _ _ (by
      intro p i k hg
      rw [decide_eq_false]
      rintro ⟨hn, -⟩
      rw [hg, show (buildSingleNode i k).num_nodes = 1 from rfl] at hn
      omega)]
    rw [filter_emitPatterns_nil _ _ buildNodeEdge _ _ (by
      intro p i k hg
      rw [decide_eq_false]
      rintro ⟨hn, -⟩
      rw [hg, show (buildNodeEdge i k).num_nodes = 2 from rfl] at hn
      omega)]
    rw [filter_emitPatterns_nil _ _ buildPath2 _ _ (by
      intro p i k hg
      rw [decide_eq_false]
      rintro ⟨-, he⟩
      rw [hg, show (buildPath2 i k).num_edges = 2 from rfl] at he
      omega)]
    rw [filter_emitPatterns_nil _ _ buildTriangle _ _ (by
      intro p i k hg
      rw [decide_eq_false]
      rintro ⟨hn, -⟩
      rw [hg, show (buildTriangle i k).num_nodes = 3 from rfl] at hn
      omega)]
    rw [filter_emitPatterns_nil _ _ buildPath3 _ _ (by
      intro p i k hg
      rw [decide_eq_false]
      rintro ⟨-, he⟩
      rw [hg, show (buildPath3 i k).num_edges = 3 from rfl] at he
      omega)]
    rw [filter_emitPatterns_nil _ _ buildStar _ _ (by
      intro p i k hg
      have hs := buildStar_shape i k
      rw [decide_eq_false]
      rintro ⟨hn, he⟩
      rw [hg] at hn he
      omega)]
    have key : ∀ (sid : Nat),
        ((emitPatterns (minSupportCount gs.length pct) sid buildSquare
          (tableOf squareKeys gs)).filter
          (fun p => decide (p.graph.num_nodes = 4 ∧ p.graph.num_edges = 4))).length ≤ 1 := by
      intro sid
      refine le_trans (List.length_filter_le _ _)
        (le_trans (emitPatterns_length_le _ _ _ _)
          (tableOf_unit_length_le squareKeys gs))
    simpa using key _

/-! ## DiscriminativeSelector (C8) -/

/-- C8: when the hard filter removes every pattern,
`select_discriminative_subgraphs` falls back to scoring and ranking the full
unfiltered pattern list (the source also prints a WARNING diagnostic on this
path); and on a non-empty pattern list (with a positive database and a
positive `k`, as in the CLI's `k = K = 100`) the returned index is never
empty.  `0 < total_graphs` excludes the `ZeroDivisionError` path of the
source's ratio computation. -/
theorem c8_empty_filter_fallback (patterns : List SubgraphPattern)
    (total_graphs k : Nat) (hne : patterns ≠ []) (htot : 0 < total_graphs)
    (hk : 1 ≤ k) :
    (patterns.filter (passesHardFilter total_graphs) = [] →
      select_discriminative_subgraphs patterns total_graphs k =
        ((patterns.map (scorePattern total_graphs)).mergeSort patternSortLe).take k) ∧
    select_discriminative_subgraphs patterns total_graphs k ≠ [] := by
  constructor
  · intro hempty
    rw [select_discriminative_subgraphs, hempty]
    simp
  · have hlen : 1 ≤ (if ((patterns.filter (passesHardFilter total_graphs)).map
        (scorePattern total_graphs)).isEmpty then patterns.map (scorePattern total_graphs)
        else (patterns.filter (passesHardFilter total_graphs)).map
          (scorePattern total_graphs)).length := by
      by_cases hfe : patterns.filter (passesHardFilter total_graphs) = []
      · rw [hfe]
        simp only [List.map_nil, List.isEmpty_nil, if_true, List.length_map]
        have := List.length_pos.mpr hne
        omega
      · have hmapne : ((patterns.filter (passesHardFilter total_graphs)).map
            (scorePattern total_graphs)).isEmpty = false := by
          rw [List.isEmpty_eq_false]
          simp only [ne_eq, List.map_eq_nil_iff]
          exact hfe
        rw [hmapne]
        simp only [Bool.false_eq_true, if_false, List.length_map]
        have : patterns.filter (passesHardFilter total_graphs) ≠ [] := hfe
        have := List.length_pos.mpr this
        omega
    rw [select_discriminative_subgraphs]
    intro hcon
    have h2 := congrArg List.length hcon
    rw [List.length_take, List.length_mergeSort] at h2
    simp only [List.length_nil] at h2
    omega

/-- C8 witness: the one-pattern index `[exPattern]` (a 0-edge pattern) is
fully removed by the hard filter at `total_graphs = 1`, `k = 100`, so the
fallback branch applies and the result is non-empty. -/
theorem c8_empty_filter_fallback_witness :
    (([exPattern] : List SubgraphPattern).filter (passesHardFilter 1) = [] →
      select_discriminative_subgraphs [exPattern] 1 100 =
        ((([exPattern] : List SubgraphPattern).map (scorePattern 1)).mergeSort
          patternSortLe).take 100) ∧
    select_discriminative_subgraphs [exPattern] 1 100 ≠ [] :=
  c8_empty_filter_fallback [exPattern] 1 100 (List.cons_ne_nil _ _)
    (by decide) (by decide)

